import Mathlib

/-!
Verification of the GitHub ETL pipeline (`src/etl_pipeline.py`).

The script is a three-stage Extract / Transform / Load pipeline:

* `extract_csv_from_github` issues a GET against the GitHub contents API
  and, on status 200, base64-decodes the `content` field into UTF-8 text;
  on any other status it raises an exception carrying the status code and
  the response body.
* `transform_csv_to_json` parses the CSV text with `csv.DictReader`
  (`parse_csv`) and serializes the resulting list of dicts with
  `json.dumps(data, indent=2)` (`to_json`).
* `load_json_to_github` first GETs the destination path; if that returns
  200 it copies the returned `sha` into the PUT payload, otherwise the
  payload has no `sha` field.  It then PUTs the payload and raises on any
  status other than 200/201.
* `run_etl_pipeline` runs the three stages inside one `try`/`except`,
  printing a failure message built from the exception on any error.

Network effects are embedded by passing the relevant HTTP responses in as
values; the Python library routines used by the script (`base64.b64encode`,
`base64.b64decode`, `str.encode("utf-8")`, `bytes.decode("utf-8")`,
`csv.DictReader`, `json.dumps`) are embedded as executable Lean functions
implementing the same algorithms, with bytes as `Nat` values below 256.
-/

/-! ### Base64 (Python `base64.b64encode` / `base64.b64decode`) -/

/-- The 64-character base64 alphabet, in index order. -/
def base64Alphabet : List Char :=
  "ABCDEFGHIJKLMNOPQRSTUVWXYZabcdefghijklmnopqrstuvwxyz0123456789+/".data

/-- Character for a six-bit value (index into the base64 alphabet). -/
def b64Char (n : Nat) : Char := base64Alphabet.getD n 'A'

/-- Six-bit value of a base64 alphabet character; `none` for any other
character. -/
def b64Index (c : Char) : Option Nat := base64Alphabet.findIdx? (· = c)

/-- Base64-encode a byte sequence, padding the final group with `=` as
`base64.b64encode` does. -/
def b64encode : List Nat → List Char
  | [] => []
  | [a] => [b64Char (a / 4), b64Char (a % 4 * 16), '=', '=']
  | [a, b] => [b64Char (a / 4), b64Char (a % 4 * 16 + b / 16), b64Char (b % 16 * 4), '=']
  | a :: b :: c :: rest =>
      b64Char (a / 4) :: b64Char (a % 4 * 16 + b / 16) :: b64Char (b % 16 * 4 + c / 64) ::
        b64Char (c % 64) :: b64encode rest

/-- Decode four-character base64 groups into bytes.  `=` padding is accepted
only at the end of the input, and input whose (cleaned) length is not a
multiple of four is rejected, as `binascii.a2b_base64` rejects it. -/
def b64decodeChunks : List Char → Option (List Nat)
  | c0 :: c1 :: c2 :: c3 :: rest =>
      (b64Index c0).bind fun s0 =>
      (b64Index c1).bind fun s1 =>
      if c2 = '=' then
        if c3 = '=' ∧ rest = [] then some [s0 * 4 + s1 / 16] else none
      else
        (b64Index c2).bind fun s2 =>
        if c3 = '=' then
          if rest = [] then some [s0 * 4 + s1 / 16, s1 % 16 * 16 + s2 / 4] else none
        else
          (b64Index c3).bind fun s3 =>
          (b64decodeChunks rest).bind fun tail =>
          some ((s0 * 4 + s1 / 16) :: (s1 % 16 * 16 + s2 / 4) :: (s2 % 4 * 64 + s3) :: tail)
  | [] => some []
  | _ => none

/-- Base64-decode a character sequence.  As in Python's `b64decode` with
`validate=False`, characters outside the alphabet and `=` are discarded
before decoding. -/
def b64decode (s : List Char) : Option (List Nat) :=
  b64decodeChunks (s.filter fun c => (b64Index c).isSome || c = '=')

/-! ### UTF-8 (Python `str.encode("utf-8")` / `bytes.decode("utf-8")`) -/

/-- UTF-8 encoding of a single character (1-4 bytes). -/
def utf8EncodeChar (c : Char) : List Nat :=
  let n := c.toNat
  if n < 0x80 then [n]
  else if n < 0x800 then [0xC0 + n / 64, 0x80 + n % 64]
  else if n < 0x10000 then [0xE0 + n / 4096, 0x80 + n / 64 % 64, 0x80 + n % 64]
  else [0xF0 + n / 262144, 0x80 + n / 4096 % 64, 0x80 + n / 64 % 64, 0x80 + n % 64]

/-- UTF-8 encoding of a string (Python `s.encode("utf-8")`). -/
def utf8Encode (s : String) : List Nat := s.data.flatMap utf8EncodeChar

/-- Decode the continuation of a two-byte UTF-8 sequence with lead byte
`b` (the lead-byte range `0xC2-0xDF` already excludes overlong two-byte
forms). -/
def utf8DecTwo (b : Nat) : List Nat → Option (Nat × List Nat)
  | b1 :: rest2 =>
      if 0x80 ≤ b1 ∧ b1 < 0xC0 then some ((b - 0xC0) * 64 + (b1 - 0x80), rest2) else none
  | [] => none

/-- Decode the continuation of a three-byte UTF-8 sequence with lead byte
`b`, rejecting overlong forms (below `0x800`) and surrogates. -/
def utf8DecThree (b : Nat) : List Nat → Option (Nat × List Nat)
  | b1 :: b2 :: rest2 =>
      if 0x80 ≤ b1 ∧ b1 < 0xC0 ∧ 0x80 ≤ b2 ∧ b2 < 0xC0 ∧
          0x800 ≤ (b - 0xE0) * 4096 + (b1 - 0x80) * 64 + (b2 - 0x80) ∧
          ¬(0xD800 ≤ (b - 0xE0) * 4096 + (b1 - 0x80) * 64 + (b2 - 0x80) ∧
            (b - 0xE0) * 4096 + (b1 - 0x80) * 64 + (b2 - 0x80) ≤ 0xDFFF) then
        some ((b - 0xE0) * 4096 + (b1 - 0x80) * 64 + (b2 - 0x80), rest2)
      else none
  | _ => none

/-- Decode the continuation of a four-byte UTF-8 sequence with lead byte
`b`, rejecting overlong forms (below `0x10000`) and code points beyond
`0x10FFFF`. -/
def utf8DecFour (b : Nat) : List Nat → Option (Nat × List Nat)
  | b1 :: b2 :: b3 :: rest2 =>
      if 0x80 ≤ b1 ∧ b1 < 0xC0 ∧ 0x80 ≤ b2 ∧ b2 < 0xC0 ∧ 0x80 ≤ b3 ∧ b3 < 0xC0 ∧
          0x10000 ≤ (b - 0xF0) * 262144 + (b1 - 0x80) * 4096 + (b2 - 0x80) * 64 + (b3 - 0x80) ∧
          (b - 0xF0) * 262144 + (b1 - 0x80) * 4096 + (b2 - 0x80) * 64 + (b3 - 0x80) ≤ 0x10FFFF then
        some ((b - 0xF0) * 262144 + (b1 - 0x80) * 4096 + (b2 - 0x80) * 64 + (b3 - 0x80), rest2)
      else none
  | _ => none

/-- Decode one code point from the front of a byte sequence, returning it
with the remaining bytes; `none` on any malformed or truncated
sequence. -/
def utf8DecodeOne : List Nat → Option (Nat × List Nat)
  | [] => none
  | b :: rest =>
    if b < 0x80 then some (b, rest)
    else if 0xC2 ≤ b ∧ b < 0xE0 then utf8DecTwo b rest
    else if 0xE0 ≤ b ∧ b < 0xF0 then utf8DecThree b rest
    else if 0xF0 ≤ b ∧ b < 0xF5 then utf8DecFour b rest
    else none

/-- Decode a whole byte sequence, one code point at a time.  The fuel
only bounds the number of code points; since every code point consumes at
least one byte, fuel equal to the byte count never runs out. -/
def utf8DecodeFuel : Nat → List Nat → Option (List Char)
  | _, [] => some []
  | 0, _ :: _ => none
  | fuel + 1, b :: rest =>
    match utf8DecodeOne (b :: rest) with
    | some nr => (utf8DecodeFuel fuel nr.2).map fun cs => Char.ofNat nr.1 :: cs
    | none => none

/-- Strict UTF-8 decoding of a byte sequence (Python `bytes.decode("utf-8")`):
rejects truncated sequences, overlong encodings, surrogate code points and
code points above `0x10FFFF`. -/
def utf8Decode (l : List Nat) : Option (List Char) := utf8DecodeFuel l.length l

/-! ### The content-codec lambdas of the script -/

/-- `encode_content = lambda content: base64.b64encode(content.encode('utf-8')).decode('utf-8')`.
The final `.decode('utf-8')` turns the ASCII base64 bytes back into text,
which is the identity on the character level. -/
def encode_content (content : String) : String :=
  String.mk (b64encode (utf8Encode content))

/-- `decode_content = lambda content: base64.b64decode(content).decode('utf-8')`.
Either decoding step can fail (raise) in Python, embedded here as `none`. -/
def decode_content (content : String) : Option String :=
  (b64decode content.data).bind fun bytes => (utf8Decode bytes).map String.mk

/-! ### HTTP-layer model

The script talks to the GitHub contents API through `requests`.  A GET
response is used only through `status_code`, `json()['content']`,
`json()['sha']` and `text`; a PUT response through `status_code`,
`json()['content']['html_url']` and `text`.  Responses are embedded as
records of exactly those fields. -/

/-- A GET response from the contents API, restricted to the fields the
script reads. -/
structure ReadResponse where
  statusCode : Nat
  content : String
  sha : String
  text : String
deriving DecidableEq

/-- A PUT response from the contents API, restricted to the fields the
script reads. -/
structure PutResponse where
  statusCode : Nat
  htmlUrl : String
  text : String
deriving DecidableEq

/-- The JSON payload of the PUT request issued by `load_json_to_github`.
`sha` is `none` when the payload dict has no `"sha"` key. -/
structure PutPayload where
  message : String
  content : String
  branch : String
  sha : Option String
deriving DecidableEq

/-- The exceptions the script can raise, with the data interpolated into
their messages.  `decodeFailure` stands for the `binascii` / Unicode
errors `decode_content` can raise; the script builds no message of its
own for those. -/
inductive PyError where
  | remoteRead (status : Nat) (body : String)
  | remoteWrite (status : Nat) (body : String)
  | decodeFailure
deriving DecidableEq

/-- `str(e)` for the exceptions raised by the script itself; the message
for a library decode error is runtime-defined and modelled by a fixed
placeholder. -/
def PyError.message : PyError → String
  | .remoteRead status body => "❌ Failed to extract: " ++ toString status ++ " - " ++ body
  | .remoteWrite status body => "❌ Failed to load: " ++ toString status ++ " - " ++ body
  | .decodeFailure => "invalid transport encoding"

/-! ### Extract -/

/-- `extract_csv_from_github`, as a function of the GET response it
receives: on status 200 it returns `decode_content` of the `content`
field, otherwise it raises with the status code and response body. -/
def extract_csv_from_github (response : ReadResponse) : Except PyError String :=
  if response.statusCode = 200 then
    match decode_content response.content with
    | some csvContent => .ok csvContent
    | none => .error .decodeFailure
  else
    .error (.remoteRead response.statusCode response.text)

/-! ### Load -/

/-- The payload built by `load_json_to_github` from the existence-check GET
response: `message`, base64 `content` and `branch` always, and `sha`
copied from the check response exactly when that response had status
200. -/
def githubPutPayload (checkResponse : ReadResponse) (jsonContent commitMessage : String) :
    PutPayload :=
  let payload : PutPayload :=
    { message := commitMessage
      content := encode_content jsonContent
      branch := "main"
      sha := none }
  if checkResponse.statusCode = 200 then
    { payload with sha := some checkResponse.sha }
  else
    payload

/-- `load_json_to_github`, as a function of the two HTTP responses it
receives.  It returns the single PUT request it issues (the
`githubPutPayload` built from the existence check) together with its
outcome: the PUT response on status 200 or 201, an exception carrying the
status code and response body otherwise. -/
def load_json_to_github (checkResponse : ReadResponse) (putResponse : PutResponse)
    (jsonContent commitMessage : String) : PutPayload × Except PyError PutResponse :=
  (githubPutPayload checkResponse jsonContent commitMessage,
   if putResponse.statusCode = 200 ∨ putResponse.statusCode = 201 then
     .ok putResponse
   else
     .error (.remoteWrite putResponse.statusCode putResponse.text))

/-! ### CSV (Python `csv.DictReader` over `StringIO`) -/

/-- The row emitted at a line boundary: a blank line (nothing accumulated,
no quotes seen) yields the empty row `[]`, exactly as `csv.reader` does;
otherwise the pending field is closed and appended. -/
def csvFinishRow (sawQuote : Bool) (field : List Char) (row : List String) : List String :=
  if row.isEmpty && field.isEmpty && !sawQuote then [] else row ++ [String.mk field]

/-- Character-level CSV splitter implementing the `csv.reader` default
dialect: `,` separates fields, `"` quotes a field (doubled `""` inside a
quoted field is a literal quote, separators and newlines inside quotes are
literal), and `\n`, `\r\n` or a lone `\r` terminate a row.  State:
whether we are inside quotes, whether the current field was quoted, the
pending field and the pending row. -/
def csvAux : Bool → Bool → List Char → List String → List Char → List (List String)
  | _, sawQuote, field, row, [] =>
      if row.isEmpty && field.isEmpty && !sawQuote then [] else [row ++ [String.mk field]]
  | true, sawQuote, field, row, '"' :: '"' :: rest2 => csvAux true sawQuote (field ++ ['"']) row rest2
  | true, sawQuote, field, row, '"' :: rest => csvAux false sawQuote field row rest
  | true, sawQuote, field, row, c :: rest => csvAux true sawQuote (field ++ [c]) row rest
  | false, _, field, row, ',' :: rest => csvAux false false [] (row ++ [String.mk field]) rest
  | false, sawQuote, field, row, '\n' :: rest =>
      csvFinishRow sawQuote field row :: csvAux false false [] [] rest
  | false, sawQuote, field, row, '\r' :: '\n' :: rest2 =>
      csvFinishRow sawQuote field row :: csvAux false false [] [] rest2
  | false, sawQuote, field, row, '\r' :: rest =>
      csvFinishRow sawQuote field row :: csvAux false false [] [] rest
  | false, sawQuote, field, row, '"' :: rest =>
      if field.isEmpty && !sawQuote then csvAux true true [] row rest
      else csvAux false sawQuote (field ++ ['"']) row rest
  | false, sawQuote, field, row, c :: rest => csvAux false sawQuote (field ++ [c]) row rest

/-- The rows `csv.reader` yields for a text. -/
def csvRows (s : String) : List (List String) := csvAux false false [] [] s.data

/-- One row as produced by `csv.DictReader`: the header names paired with
this row's values in header order (`none` where the row is shorter than
the header, Python's `restval=None`), plus the overflow values beyond the
header length, which `DictReader` stores under its `restkey` (`None`).
Python's `dict` would collapse duplicate header names; headers with
distinct names — the only ones for which key order is observable — are
embedded faithfully by the list. -/
structure TabularRecord where
  fields : List (String × Option String)
  extras : List String
deriving DecidableEq

/-- The record `csv.DictReader` builds from a header and one data row. -/
def mkRecord (fieldnames row : List String) : TabularRecord :=
  { fields := fieldnames.mapIdx fun i name => (name, row[i]?)
    extras := row.drop fieldnames.length }

/-- `csv.DictReader` semantics over a row list: the first row (even an
empty one) gives the field names, every following row becomes one record,
except that empty rows are skipped. -/
def dictReaderRecords (rows : List (List String)) : List TabularRecord :=
  match rows with
  | [] => []
  | header :: dataRows => (dataRows.filter fun r => !r.isEmpty).map (mkRecord header)

/-- `parse_csv = lambda csv_text: list(csv.DictReader(StringIO(csv_text)))`. -/
def parse_csv (csvText : String) : List TabularRecord :=
  dictReaderRecords (csvRows csvText)

/-! ### JSON serialization (Python `json.dumps(data, indent=2)`)

The values `to_json` receives are lists of `DictReader` rows, whose
entries are strings, `None`, and the `restkey` list of strings, so the
JSON value space needed is `null`, strings, arrays and objects. -/

/-- JSON values in the image of the pipeline's data. -/
inductive Json where
  | null
  | str (s : String)
  | arr (xs : List Json)
  | obj (fields : List (String × Json))

/-- Lowercase hexadecimal digit, as produced by Python's `\uXXXX` escapes. -/
def hexDigitChar (n : Nat) : Char := "0123456789abcdef".data.getD n '0'

/-- Four lowercase hex digits of a value below `0x10000`. -/
def hex4 (n : Nat) : List Char :=
  [hexDigitChar (n / 4096 % 16), hexDigitChar (n / 256 % 16),
   hexDigitChar (n / 16 % 16), hexDigitChar (n % 16)]

/-- The escaping `json.dumps` applies to one character with the default
`ensure_ascii=True`: shorthand escapes for the quote, backslash and the
common control characters, printable ASCII verbatim, `\uXXXX` for every
other character, with a surrogate pair for characters beyond `0xFFFF`. -/
def escapeChar (c : Char) : List Char :=
  if c = '"' then ['\\', '"']
  else if c = '\\' then ['\\', '\\']
  else if c.toNat = 8 then ['\\', 'b']
  else if c.toNat = 9 then ['\\', 't']
  else if c.toNat = 10 then ['\\', 'n']
  else if c.toNat = 12 then ['\\', 'f']
  else if c.toNat = 13 then ['\\', 'r']
  else if 0x20 ≤ c.toNat ∧ c.toNat ≤ 0x7E then [c]
  else if c.toNat < 0x10000 then '\\' :: 'u' :: hex4 c.toNat
  else
    '\\' :: 'u' :: hex4 (0xD800 + (c.toNat - 0x10000) / 1024) ++
      ('\\' :: 'u' :: hex4 (0xDC00 + (c.toNat - 0x10000) % 1024))

/-- A JSON string literal: quoted, character-wise escaped. -/
def renderString (s : String) : List Char :=
  '"' :: (s.data.flatMap escapeChar ++ ['"'])

/-- The indentation prefix at nesting level `lvl` for `indent=2`. -/
def indentChars (lvl : Nat) : List Char := List.replicate (2 * lvl) ' '

mutual

/-- Rendering of a JSON value at nesting level `lvl`, following
`json.dumps(data, indent=2)`: empty containers are `[]` / `\x7b\x7d` on one
line, non-empty containers put every item on its own indented line,
items separated by `,` and a newline. -/
def renderJson : Nat → Json → List Char
  | _, .null => "null".data
  | _, .str s => renderString s
  | _, .arr [] => "[]".data
  | lvl, .arr (x :: xs) =>
      "[\n".data ++ renderItems lvl (x :: xs) ++ '\n' :: (indentChars lvl ++ "]".data)
  | _, .obj [] => "\x7b\x7d".data
  | lvl, .obj (kv :: kvs) =>
      "\x7b\n".data ++ renderFields lvl (kv :: kvs) ++ '\n' :: (indentChars lvl ++ "\x7d".data)

/-- The item lines of a non-empty JSON array. -/
def renderItems : Nat → List Json → List Char
  | _, [] => []
  | lvl, [x] => indentChars (lvl + 1) ++ renderJson (lvl + 1) x
  | lvl, x :: xs =>
      indentChars (lvl + 1) ++ renderJson (lvl + 1) x ++ ",\n".data ++ renderItems lvl xs

/-- The `"key": value` lines of a non-empty JSON object. -/
def renderFields : Nat → List (String × Json) → List Char
  | _, [] => []
  | lvl, [kv] => indentChars (lvl + 1) ++ renderString kv.1 ++ ": ".data ++ renderJson (lvl + 1) kv.2
  | lvl, kv :: kvs =>
      indentChars (lvl + 1) ++ renderString kv.1 ++ ": ".data ++ renderJson (lvl + 1) kv.2 ++
        ",\n".data ++ renderFields lvl kvs

end

/-! ### JSON parsing

`json.loads` restricted to the value forms the serializer above emits
(`null`, strings, arrays, objects): whitespace-insensitive, strings with
the standard escapes including `\uXXXX` and surrogate pairs, raw control
characters rejected (Python's default `strict=True`).  Unpaired
surrogates, which CPython tolerates, cannot inhabit a Lean `Char` and are
rejected; the serializer never emits them. -/

/-- JSON whitespace. -/
def isJsonWs (c : Char) : Bool := c = ' ' || c = '\n' || c = '\t' || c = '\r'

/-- Drop leading JSON whitespace. -/
def skipWs : List Char → List Char
  | [] => []
  | c :: rest => if isJsonWs c then skipWs rest else c :: rest

/-- Value of one hexadecimal digit, either case. -/
def hexVal (c : Char) : Option Nat :=
  if '0' ≤ c ∧ c ≤ '9' then some (c.toNat - '0'.toNat)
  else if 'a' ≤ c ∧ c ≤ 'f' then some (c.toNat - 'a'.toNat + 10)
  else if 'A' ≤ c ∧ c ≤ 'F' then some (c.toNat - 'A'.toNat + 10)
  else none

/-- The character named by a single-character JSON escape. -/
def jsonUnescape (e : Char) : Option Char :=
  if e = '"' then some '"'
  else if e = '\\' then some '\\'
  else if e = '/' then some '/'
  else if e = 'b' then some (Char.ofNat 8)
  else if e = 'f' then some (Char.ofNat 12)
  else if e = 'n' then some '\n'
  else if e = 'r' then some (Char.ofNat 13)
  else if e = 't' then some '\t'
  else none

/-- Read four hexadecimal digits into a value. -/
def jsonReadHex4 : List Char → Option (Nat × List Char)
  | h1 :: h2 :: h3 :: h4 :: rest =>
      (hexVal h1).bind fun d1 => (hexVal h2).bind fun d2 =>
      (hexVal h3).bind fun d3 => (hexVal h4).bind fun d4 =>
      some (d1 * 4096 + d2 * 256 + d3 * 16 + d4, rest)
  | _ => none

/-- Read the `\uXXXX` low half of a surrogate pair. -/
def jsonReadLowSurrogate : List Char → Option (Nat × List Char)
  | e2 :: u2 :: rest3 =>
      if e2 = '\\' ∧ u2 = 'u' then
        (jsonReadHex4 rest3).bind fun mr =>
        if 0xDC00 ≤ mr.1 ∧ mr.1 ≤ 0xDFFF then some (mr.1, mr.2) else none
      else none
  | _ => none

/-- Resolve one JSON string escape (the characters after the backslash):
a single-character escape, one `\uXXXX` unit, or a surrogate pair. -/
def jsonReadEscape : List Char → Option (Char × List Char)
  | [] => none
  | e :: rest2 =>
    if e = 'u' then
      (jsonReadHex4 rest2).bind fun nr =>
      if 0xD800 ≤ nr.1 ∧ nr.1 ≤ 0xDBFF then
        (jsonReadLowSurrogate nr.2).map fun mr =>
          (Char.ofNat (0x10000 + (nr.1 - 0xD800) * 1024 + (mr.1 - 0xDC00)), mr.2)
      else if 0xDC00 ≤ nr.1 ∧ nr.1 ≤ 0xDFFF then none
      else some (Char.ofNat nr.1, nr.2)
    else (jsonUnescape e).map fun ec => (ec, rest2)

/-- JSON string-body scanner: consumes characters after the opening quote
up to and including the closing quote, resolving escapes and rejecting
raw control characters.  Every step consumes at least one input
character, so fuel equal to the input length never runs out. -/
def parseStrFuel : Nat → List Char → List Char → Option (List Char × List Char)
  | _, _, [] => none
  | 0, _, _ :: _ => none
  | fuel + 1, acc, c :: rest =>
    if c = '"' then some (acc, rest)
    else if c = '\\' then
      match jsonReadEscape rest with
      | some cr => parseStrFuel fuel (acc ++ [cr.1]) cr.2
      | none => none
    else if c.toNat < 0x20 then none
    else parseStrFuel fuel (acc ++ [c]) rest

/-- The first character after leading whitespace, with what follows it. -/
def jsonHead (l : List Char) : Option (Char × List Char) :=
  match skipWs l with
  | [] => none
  | c :: rest => some (c, rest)

/-- The tail of the literal `null` after its `n`. -/
def jsonReadNullTail : List Char → Option (Json × List Char)
  | 'u' :: 'l' :: 'l' :: rest2 => some (Json.null, rest2)
  | _ => none

mutual

/-- Fuel-indexed JSON value reader.  Every recursive call spends one unit
of fuel, so any fuel bounding the value's total size suffices. -/
def parseVal : Nat → List Char → Option (Json × List Char)
  | 0, _ => none
  | fuel + 1, input =>
    (jsonHead input).bind fun cr =>
    if cr.1 = 'n' then jsonReadNullTail cr.2
    else if cr.1 = '"' then
      (parseStrFuel cr.2.length [] cr.2).map fun sr => (Json.str (String.mk sr.1), sr.2)
    else if cr.1 = '[' then
      (jsonHead cr.2).bind fun dr =>
      if dr.1 = ']' then some (Json.arr [], dr.2)
      else (parseItemsAux fuel (dr.1 :: dr.2)).map fun xr => (Json.arr xr.1, xr.2)
    else if cr.1 = '\x7b' then
      (jsonHead cr.2).bind fun dr =>
      if dr.1 = '\x7d' then some (Json.obj [], dr.2)
      else (parseFieldsAux fuel (dr.1 :: dr.2)).map fun xr => (Json.obj xr.1, xr.2)
    else none

/-- Items of a non-empty JSON array, up to and including the closing
bracket. -/
def parseItemsAux : Nat → List Char → Option (List Json × List Char)
  | 0, _ => none
  | fuel + 1, input =>
    (parseVal fuel input).bind fun vr =>
    (jsonHead vr.2).bind fun cr =>
    if cr.1 = ',' then (parseItemsAux fuel cr.2).map fun xr => (vr.1 :: xr.1, xr.2)
    else if cr.1 = ']' then some ([vr.1], cr.2)
    else none

/-- Key-value pairs of a non-empty JSON object, up to and including the
closing brace. -/
def parseFieldsAux : Nat → List Char → Option (List (String × Json) × List Char)
  | 0, _ => none
  | fuel + 1, input =>
    (jsonHead input).bind fun cr =>
    if cr.1 = '"' then
      (parseStrFuel cr.2.length [] cr.2).bind fun kr =>
      (jsonHead kr.2).bind fun dr =>
      if dr.1 = ':' then
        (parseVal fuel dr.2).bind fun vr =>
        (jsonHead vr.2).bind fun er =>
        if er.1 = ',' then
          (parseFieldsAux fuel er.2).map fun xr => ((String.mk kr.1, vr.1) :: xr.1, xr.2)
        else if er.1 = '\x7d' then some ([(String.mk kr.1, vr.1)], er.2)
        else none
      else none
    else none

end

mutual

/-- The size measure matching the parser's fuel consumption: any fuel at
least `jsonFuel v` lets `parseVal` read a rendering of `v` to the end. -/
def jsonFuel : Json → Nat
  | .null => 1
  | .str _ => 1
  | .arr xs => 1 + jsonListFuel xs
  | .obj kvs => 1 + jsonFieldsFuel kvs

def jsonListFuel : List Json → Nat
  | [] => 1
  | x :: xs => 1 + jsonFuel x + jsonListFuel xs

def jsonFieldsFuel : List (String × Json) → Nat
  | [] => 1
  | kv :: kvs => 1 + jsonFuel kv.2 + jsonFieldsFuel kvs

end

/-- Parse a complete JSON document: one value, possibly surrounded by
whitespace, with nothing after it.  The input's length plus one bounds the
recursion depth of any value the input can denote. -/
def jsonParse (s : String) : Option Json :=
  (parseVal (s.length + 1) s.data).bind fun vr =>
  if skipWs vr.2 = [] then some vr.1 else none

/-- The JSON value of one `DictReader` cell (`None` becomes `null`). -/
def recordValueJson : Option String → Json
  | some s => .str s
  | none => .null

/-- The JSON object `json.dumps` writes for one record: the header fields
in order, then — when the row overflowed the header — the `restkey`
entry, whose `None` key `json.dumps` coerces to the string `"null"`. -/
def recordJson (r : TabularRecord) : Json :=
  .obj ((r.fields.map fun kv => (kv.1, recordValueJson kv.2)) ++
    if r.extras.isEmpty then [] else [("null", .arr (r.extras.map .str))])

/-- The JSON value of a whole record list. -/
def recordsJson (data : List TabularRecord) : Json := .arr (data.map recordJson)

/-- `to_json = lambda data: json.dumps(data, indent=2)`. -/
def to_json (data : List TabularRecord) : String :=
  String.mk (renderJson 0 (recordsJson data))

/-- `transform_csv_to_json`: parse the CSV text, serialize the record list. -/
def transform_csv_to_json (csvContent : String) : String :=
  to_json (parse_csv csvContent)

/-! ### Orchestrator (`run_etl_pipeline`) -/

/-- The HTTP responses one pipeline run receives: the extract GET, the
loader's existence-check GET, and the loader's PUT. -/
structure Env where
  extractResponse : ReadResponse
  checkResponse : ReadResponse
  putResponse : PutResponse
deriving DecidableEq

/-- What one run reports at its `try`/`except` boundary: the destination
`html_url` on success, the printed failure message otherwise. -/
inductive PipelineOutcome where
  | success (htmlUrl : String)
  | failure (message : String)
deriving DecidableEq

/-- The failure line `run_etl_pipeline` prints from a caught exception. -/
def pipelineFailureMessage (e : PyError) : String :=
  "💥 ETL Pipeline failed: " ++ e.message

/-- The commit message `run_etl_pipeline` passes to the loader. -/
def etlCommitMessage : String := "ETL Pipeline: Automated CSV to JSON conversion"

/-- `run_etl_pipeline`: Extract, then Transform, then Load, inside a
single `try`/`except` that reports the first exception.  Alongside the
outcome, the list of PUT (write) requests issued during the run is
returned, so that "no write was issued" is expressible. -/
def run_etl_pipeline (env : Env) : PipelineOutcome × List PutPayload :=
  match extract_csv_from_github env.extractResponse with
  | .error e => (.failure (pipelineFailureMessage e), [])
  | .ok csvData =>
    let jsonData := transform_csv_to_json csvData
    let loadResult := load_json_to_github env.checkResponse env.putResponse jsonData etlCommitMessage
    match loadResult.2 with
    | .error e => (.failure (pipelineFailureMessage e), [loadResult.1])
    | .ok putResponse => (.success putResponse.htmlUrl, [loadResult.1])

/-! ## Claims -/

/-- The record list `DictReader` yields is the per-row map of `mkRecord`
whenever no data row is empty (empty rows are the only ones it skips). -/
theorem dictReaderRecords_cons (header : List String) (dataRows : List (List String))
    (hne : ∀ r ∈ dataRows, r ≠ []) :
    dictReaderRecords (header :: dataRows) = dataRows.map (mkRecord header) := by
  have hfilter : dataRows.filter (fun r => !r.isEmpty) = dataRows := by
    apply List.filter_eq_self.mpr
    intro r hr
    simpa [List.isEmpty_iff] using hne r hr
  simp only [dictReaderRecords, hfilter]

/-- C1: for every tabular input splitting into a header row and data rows
none of which is blank, `parse_csv` yields exactly one record per data
row, in input order (it is the order-preserving map of `mkRecord` over the
data rows). -/
theorem parse_csv_row_count_order (text : String) (header : List String)
    (dataRows : List (List String)) (hrows : csvRows text = header :: dataRows)
    (hne : ∀ r ∈ dataRows, r ≠ []) :
    parse_csv text = dataRows.map (mkRecord header) ∧
      (parse_csv text).length = dataRows.length := by
  have h : parse_csv text = dataRows.map (mkRecord header) := by
    unfold parse_csv
    rw [hrows, dictReaderRecords_cons header dataRows hne]
  exact ⟨h, by rw [h, List.length_map]⟩

/-- Witness for C1 on the two-data-row input `"a,b\n1,2\n3,4\n"`. -/
theorem parse_csv_row_count_order_witness :
    csvRows "a,b\n1,2\n3,4\n" = [["a", "b"], ["1", "2"], ["3", "4"]] ∧
      parse_csv "a,b\n1,2\n3,4\n" =
        [["1", "2"], ["3", "4"]].map (mkRecord ["a", "b"]) ∧
      (parse_csv "a,b\n1,2\n3,4\n").length = 2 := by
  refine ⟨by decide, ?_⟩
  have h := parse_csv_row_count_order "a,b\n1,2\n3,4\n" ["a", "b"] [["1", "2"], ["3", "4"]]
    (by decide) (by decide)
  exact h

/-- C2: the PUT payload carries a `sha` field exactly when the
existence-check GET returned status 200, and then it is that response's
`sha` unchanged; on any other check status the payload has no `sha`. -/
theorem upload_payload_sha (check : ReadResponse) (content msg : String) :
    (githubPutPayload check content msg).sha =
      if check.statusCode = 200 then some check.sha else none := by
  unfold githubPutPayload
  split <;> rfl

/-- C3: on a 200 GET response whose `content` field base64-decodes to
UTF-8 text `s`, extraction returns exactly `s`. -/
theorem extract_success_decodes (resp : ReadResponse) (s : String)
    (hstatus : resp.statusCode = 200) (hdec : decode_content resp.content = some s) :
    extract_csv_from_github resp = .ok s := by
  unfold extract_csv_from_github
  rw [if_pos hstatus, hdec]

/-- Witness for C3: payload `"aGVsbG8="` yields the text `"hello"`. -/
theorem extract_success_decodes_witness :
    decode_content "aGVsbG8=" = some "hello" ∧
      extract_csv_from_github ⟨200, "aGVsbG8=", "", ""⟩ = .ok "hello" :=
  ⟨by decide, extract_success_decodes ⟨200, "aGVsbG8=", "", ""⟩ "hello" rfl (by decide)⟩

/-- C4: on any non-200 GET response, extraction fails with the error that
carries that status code and the response body, returning nothing else. -/
theorem extract_failure_carries_status (resp : ReadResponse)
    (hstatus : resp.statusCode ≠ 200) :
    extract_csv_from_github resp = .error (.remoteRead resp.statusCode resp.text) := by
  unfold extract_csv_from_github
  rw [if_neg hstatus]

/-- Witness for C4 at status 404: the error contains 404 and the body. -/
theorem extract_failure_carries_status_witness :
    (404 : Nat) ≠ 200 ∧
      extract_csv_from_github ⟨404, "", "", "Not Found"⟩ =
        .error (.remoteRead 404 "Not Found") :=
  ⟨by decide, extract_failure_carries_status ⟨404, "", "", "Not Found"⟩ (by decide)⟩

/-- C5 counterexample: on empty input the transform stage does not fail —
`parse_csv` returns the empty record list and `transform_csv_to_json`
returns the document `"[]"`.  No `MalformedInputError` (or any other
error) exists on this path in the code. -/
theorem transform_empty_input_returns_value :
    parse_csv "" = [] ∧ transform_csv_to_json "" = "[]" := by
  constructor <;> rfl

/-- C5 amended: on input that is empty or consists of a header row only,
the transform stage succeeds with the empty record list, serialized as
`"[]"`. -/
theorem transform_empty_or_header_only (text : String)
    (h : csvRows text = [] ∨ ∃ header, csvRows text = [header]) :
    parse_csv text = [] ∧ transform_csv_to_json text = "[]" := by
  have hp : parse_csv text = [] := by
    unfold parse_csv
    rcases h with h | ⟨header, h⟩ <;> rw [h] <;> rfl
  refine ⟨hp, ?_⟩
  unfold transform_csv_to_json
  rw [hp]
  rfl

/-- Witness for C5 amended, on the header-only input `"a,b\n"`. -/
theorem transform_empty_or_header_only_witness :
    (csvRows "a,b\n" = [] ∨ ∃ header, csvRows "a,b\n" = [header]) ∧
      parse_csv "a,b\n" = [] ∧ transform_csv_to_json "a,b\n" = "[]" := by
  have h : csvRows "a,b\n" = [] ∨ ∃ header, csvRows "a,b\n" = [header] :=
    Or.inr ⟨["a", "b"], by decide⟩
  exact ⟨h, transform_empty_or_header_only "a,b\n" h⟩

/-- C6: when the Extract stage fails, the run reports that failure and the
list of write (PUT) requests issued during the run is empty — Transform
and Load are never reached. -/
theorem run_no_write_after_extract_failure (env : Env) (e : PyError)
    (h : extract_csv_from_github env.extractResponse = .error e) :
    run_etl_pipeline env = (.failure (pipelineFailureMessage e), []) := by
  unfold run_etl_pipeline
  rw [h]

/-- Witness for C6: with a 404 extract response, the run fails and issues
no write request. -/
theorem run_no_write_after_extract_failure_witness :
    extract_csv_from_github ⟨404, "", "", "err"⟩ = .error (.remoteRead 404 "err") ∧
      run_etl_pipeline ⟨⟨404, "", "", "err"⟩, ⟨200, "", "s", ""⟩, ⟨201, "u", ""⟩⟩ =
        (.failure (pipelineFailureMessage (.remoteRead 404 "err")), []) := by
  have h : extract_csv_from_github ⟨404, "", "", "err"⟩ = .error (.remoteRead 404 "err") := by
    rfl
  exact ⟨h, run_no_write_after_extract_failure ⟨⟨404, "", "", "err"⟩, ⟨200, "", "s", ""⟩,
    ⟨201, "u", ""⟩⟩ (.remoteRead 404 "err") h⟩

/-- C9: every run ends at the `try`/`except` boundary in one of exactly
two ways — a success outcome, or a failure outcome whose message is the
failure line built from the caught stage exception.  No other behavior
(in particular no unhandled fault) is possible. -/
theorem run_reports_success_or_caught_error (env : Env) :
    (∃ url, (run_etl_pipeline env).1 = .success url) ∨
      (∃ e, (run_etl_pipeline env).1 = .failure (pipelineFailureMessage e)) := by
  unfold run_etl_pipeline
  cases hx : extract_csv_from_github env.extractResponse with
  | error e => exact Or.inr ⟨e, rfl⟩
  | ok csvData =>
    unfold load_json_to_github
    by_cases hput : env.putResponse.statusCode = 200 ∨ env.putResponse.statusCode = 201
    · rw [if_pos hput]
      exact Or.inl ⟨env.putResponse.htmlUrl, rfl⟩
    · rw [if_neg hput]
      exact Or.inr ⟨.remoteWrite env.putResponse.statusCode env.putResponse.text, rfl⟩

/-- C8: the CSV text `"ticker,price\nAAA,10\nBBB,20\n"` parses to exactly
the two records (AAA, 10) and (BBB, 20) in that order, and serializes to
the two-entry JSON document in the same order. -/
theorem transform_concrete_two_rows :
    parse_csv "ticker,price\nAAA,10\nBBB,20\n" =
      [⟨[("ticker", some "AAA"), ("price", some "10")], []⟩,
       ⟨[("ticker", some "BBB"), ("price", some "20")], []⟩] ∧
      transform_csv_to_json "ticker,price\nAAA,10\nBBB,20\n" =
        "[\n  \x7b\n    \"ticker\": \"AAA\",\n    \"price\": \"10\"\n  \x7d,\n  \x7b\n    \"ticker\": \"BBB\",\n    \"price\": \"20\"\n  \x7d\n]" := by
  constructor <;> rfl

theorem char_toNat_valid (c : Char) :
    c.toNat < 0xD800 ∨ (0xDFFF < c.toNat ∧ c.toNat < 0x110000) := by
  rcases c.valid with h | ⟨h1, h2⟩
  · exact Or.inl h
  · exact Or.inr ⟨h1, h2⟩

theorem utf8EncodeChar_lt_256 (c : Char) : ∀ b ∈ utf8EncodeChar c, b < 256 := by
  have hv := char_toNat_valid c
  have hlt : c.toNat < 0x110000 := by omega
  unfold utf8EncodeChar
  intro b hb
  simp only at hb
  split_ifs at hb <;> simp at hb <;> omega

theorem utf8DecodeOne_encodeChar (c : Char) (l : List Nat) :
    utf8DecodeOne (utf8EncodeChar c ++ l) = some (c.toNat, l) := by
  have hv := char_toNat_valid c
  by_cases h1 : c.toNat < 0x80
  · have he : utf8EncodeChar c = [c.toNat] := by
      unfold utf8EncodeChar
      simp only
      rw [if_pos h1]
    rw [he, List.cons_append, List.nil_append]
    simp only [utf8DecodeOne]
    rw [if_pos h1]
  · by_cases h2 : c.toNat < 0x800
    · have he : utf8EncodeChar c = [0xC0 + c.toNat / 64, 0x80 + c.toNat % 64] := by
        unfold utf8EncodeChar
        simp only
        rw [if_neg h1, if_pos h2]
      rw [he, List.cons_append, List.cons_append, List.nil_append]
      simp only [utf8DecodeOne]
      rw [if_neg (by omega), if_pos (by constructor <;> omega)]
      simp only [utf8DecTwo]
      rw [if_pos (by constructor <;> omega)]
      have harg : (0xC0 + c.toNat / 64 - 0xC0) * 64 + (0x80 + c.toNat % 64 - 0x80) = c.toNat := by
        omega
      rw [harg]
    · by_cases h3 : c.toNat < 0x10000
      · have he : utf8EncodeChar c =
            [0xE0 + c.toNat / 4096, 0x80 + c.toNat / 64 % 64, 0x80 + c.toNat % 64] := by
          unfold utf8EncodeChar
          simp only
          rw [if_neg h1, if_neg h2, if_pos h3]
        rw [he, List.cons_append, List.cons_append, List.cons_append, List.nil_append]
        simp only [utf8DecodeOne]
        rw [if_neg (by omega), if_neg (by omega), if_pos (by constructor <;> omega)]
        simp only [utf8DecThree]
        have harg : (0xE0 + c.toNat / 4096 - 0xE0) * 4096 +
            (0x80 + c.toNat / 64 % 64 - 0x80) * 64 + (0x80 + c.toNat % 64 - 0x80) = c.toNat := by
          omega
        rw [if_pos (by rw [harg]; refine ⟨by omega, by omega, by omega, by omega, by omega, ?_⟩; omega)]
        rw [harg]
      · have h4 : c.toNat < 0x110000 := by omega
        have he : utf8EncodeChar c =
            [0xF0 + c.toNat / 262144, 0x80 + c.toNat / 4096 % 64,
             0x80 + c.toNat / 64 % 64, 0x80 + c.toNat % 64] := by
          unfold utf8EncodeChar
          simp only
          rw [if_neg h1, if_neg h2, if_neg h3]
        rw [he, List.cons_append, List.cons_append, List.cons_append, List.cons_append,
          List.nil_append]
        simp only [utf8DecodeOne]
        rw [if_neg (by omega), if_neg (by omega), if_neg (by omega),
          if_pos (by constructor <;> omega)]
        simp only [utf8DecFour]
        have harg : (0xF0 + c.toNat / 262144 - 0xF0) * 262144 +
            (0x80 + c.toNat / 4096 % 64 - 0x80) * 4096 +
            (0x80 + c.toNat / 64 % 64 - 0x80) * 64 + (0x80 + c.toNat % 64 - 0x80) = c.toNat := by
          omega
        rw [if_pos (by rw [harg]; exact ⟨by omega, by omega, by omega, by omega, by omega,
          by omega, by omega, by omega⟩)]
        rw [harg]

theorem utf8EncodeChar_ne_nil (c : Char) : utf8EncodeChar c ≠ [] := by
  unfold utf8EncodeChar
  simp only
  split_ifs <;> simp

theorem utf8DecodeFuel_encode (cs : List Char) :
    ∀ fuel, cs.length ≤ fuel →
      utf8DecodeFuel fuel (cs.flatMap utf8EncodeChar) = some cs := by
  induction cs with
  | nil => intro fuel _; simp [utf8DecodeFuel]
  | cons c rest ih =>
    intro fuel hfuel
    obtain ⟨f, rfl⟩ : ∃ f, fuel = f + 1 := ⟨fuel - 1, by simp at hfuel; omega⟩
    rw [List.flatMap_cons]
    obtain ⟨b, bs, hb⟩ : ∃ b bs, utf8EncodeChar c ++ rest.flatMap utf8EncodeChar = b :: bs := by
      cases henc : utf8EncodeChar c with
      | nil => exact absurd henc (utf8EncodeChar_ne_nil c)
      | cons x xs => exact ⟨x, xs ++ rest.flatMap utf8EncodeChar, by simp [henc]⟩
    rw [hb]
    simp only [utf8DecodeFuel]
    rw [← hb, utf8DecodeOne_encodeChar]
    simp only
    rw [ih f (by simp at hfuel; omega), Char.ofNat_toNat]
    rfl

theorem length_le_flatMap_utf8 (cs : List Char) :
    cs.length ≤ (cs.flatMap utf8EncodeChar).length := by
  induction cs with
  | nil => simp
  | cons c rest ih =>
    rw [List.flatMap_cons, List.length_append, List.length_cons]
    have : 1 ≤ (utf8EncodeChar c).length := by
      cases henc : utf8EncodeChar c with
      | nil => exact absurd henc (utf8EncodeChar_ne_nil c)
      | cons x xs => simp
    omega

theorem utf8Decode_encode (s : String) : utf8Decode (utf8Encode s) = some s.data := by
  unfold utf8Decode utf8Encode
  exact utf8DecodeFuel_encode s.data _ (length_le_flatMap_utf8 s.data)

theorem b64Index_b64Char_fin : ∀ s : Fin 64, b64Index (b64Char s.val) = some s.val := by decide

theorem b64Index_b64Char {s : Nat} (h : s < 64) : b64Index (b64Char s) = some s :=
  b64Index_b64Char_fin ⟨s, h⟩

theorem b64Char_ne_eq_fin : ∀ s : Fin 64, b64Char s.val ≠ '=' := by decide

theorem b64Char_ne_eq {s : Nat} (h : s < 64) : b64Char s ≠ '=' := b64Char_ne_eq_fin ⟨s, h⟩

theorem b64decodeChunks_encode (l : List Nat) (hl : ∀ b ∈ l, b < 256) :
    b64decodeChunks (b64encode l) = some l :=
  match l with
  | [] => by simp [b64encode, b64decodeChunks]
  | [a] => by
      have ha : a < 256 := hl a (by simp)
      have h0 : a / 4 < 64 := by omega
      have h1 : a % 4 * 16 < 64 := by omega
      simp only [b64encode, b64decodeChunks, b64Index_b64Char h0, b64Index_b64Char h1,
        Option.bind_some, if_pos rfl]
      simp
      omega
  | [a, b] => by
      have ha : a < 256 := hl a (by simp)
      have hb : b < 256 := hl b (by simp)
      have h0 : a / 4 < 64 := by omega
      have h1 : a % 4 * 16 + b / 16 < 64 := by omega
      have h2 : b % 16 * 4 < 64 := by omega
      simp only [b64encode, b64decodeChunks, b64Index_b64Char h0, b64Index_b64Char h1,
        b64Index_b64Char h2, Option.bind_some, if_neg (b64Char_ne_eq h2), if_pos rfl]
      simp
      omega
  | a :: b :: c :: rest => by
      have ha : a < 256 := hl a (by simp)
      have hb : b < 256 := hl b (by simp)
      have hc : c < 256 := hl c (by simp)
      have hrest : ∀ x ∈ rest, x < 256 := fun x hx => hl x (by simp [hx])
      have h0 : a / 4 < 64 := by omega
      have h1 : a % 4 * 16 + b / 16 < 64 := by omega
      have h2 : b % 16 * 4 + c / 64 < 64 := by omega
      have h3 : c % 64 < 64 := by omega
      have ih := b64decodeChunks_encode rest hrest
      simp only [b64encode, b64decodeChunks, b64Index_b64Char h0, b64Index_b64Char h1,
        b64Index_b64Char h2, b64Index_b64Char h3, Option.bind_some,
        if_neg (b64Char_ne_eq h2), if_neg (b64Char_ne_eq h3), ih]
      simp
      omega

theorem mem_b64encode_allowed (l : List Nat) (hl : ∀ b ∈ l, b < 256) :
    ∀ c ∈ b64encode l, ((b64Index c).isSome || decide (c = '=')) = true :=
  match l with
  | [] => by simp [b64encode]
  | [a] => by
      have ha : a < 256 := hl a (by simp)
      have h0 : a / 4 < 64 := by omega
      have h1 : a % 4 * 16 < 64 := by omega
      intro c hc
      simp only [b64encode, List.mem_cons, List.mem_singleton, List.not_mem_nil] at hc
      rcases hc with h | h | h | h | h
      · simp [h, b64Index_b64Char h0]
      · simp [h, b64Index_b64Char h1]
      · simp [h]
      · simp [h]
      · exact absurd h (by simp)
  | [a, b] => by
      have ha : a < 256 := hl a (by simp)
      have hb : b < 256 := hl b (by simp)
      have h0 : a / 4 < 64 := by omega
      have h1 : a % 4 * 16 + b / 16 < 64 := by omega
      have h2 : b % 16 * 4 < 64 := by omega
      intro c hc
      simp only [b64encode, List.mem_cons, List.mem_singleton, List.not_mem_nil] at hc
      rcases hc with h | h | h | h | h
      · simp [h, b64Index_b64Char h0]
      · simp [h, b64Index_b64Char h1]
      · simp [h, b64Index_b64Char h2]
      · simp [h]
      · exact absurd h (by simp)
  | a :: b :: c :: rest => by
      have ha : a < 256 := hl a (by simp)
      have hb : b < 256 := hl b (by simp)
      have hc' : c < 256 := hl c (by simp)
      have hrest : ∀ x ∈ rest, x < 256 := fun x hx => hl x (by simp [hx])
      have h0 : a / 4 < 64 := by omega
      have h1 : a % 4 * 16 + b / 16 < 64 := by omega
      have h2 : b % 16 * 4 + c / 64 < 64 := by omega
      have h3 : c % 64 < 64 := by omega
      intro d hd
      simp only [b64encode, List.mem_cons] at hd
      rcases hd with h | h | h | h | h
      · simp [h, b64Index_b64Char h0]
      · simp [h, b64Index_b64Char h1]
      · simp [h, b64Index_b64Char h2]
      · simp [h, b64Index_b64Char h3]
      · exact mem_b64encode_allowed rest hrest d h

theorem b64decode_encode (l : List Nat) (hl : ∀ b ∈ l, b < 256) :
    b64decode (b64encode l) = some l := by
  unfold b64decode
  rw [List.filter_eq_self.mpr (mem_b64encode_allowed l hl)]
  exact b64decodeChunks_encode l hl

/-- C10: the transport encoding used by the Loader (`encode_content`,
UTF-8 then base64) and the decoding used by the Extractor
(`decode_content`, base64 then UTF-8) are mutually inverse: decoding the
encoded form of any Unicode string gives the string back exactly. -/
theorem decode_encode_content (s : String) : decode_content (encode_content s) = some s := by
  unfold decode_content encode_content
  have hdata : (String.mk (b64encode (utf8Encode s))).data = b64encode (utf8Encode s) := rfl
  rw [hdata]
  have hbytes : ∀ b ∈ utf8Encode s, b < 256 := by
    intro b hb
    unfold utf8Encode at hb
    rcases List.mem_flatMap.mp hb with ⟨c, _, hbc⟩
    exact utf8EncodeChar_lt_256 c b hbc
  rw [b64decode_encode (utf8Encode s) hbytes]
  simp [utf8Decode_encode s]

theorem skipWs_cons_ws {c : Char} (h : isJsonWs c = true) (l : List Char) :
    skipWs (c :: l) = skipWs l := by
  simp [skipWs, h]

theorem skipWs_cons_not_ws {c : Char} (h : isJsonWs c = false) (l : List Char) :
    skipWs (c :: l) = c :: l := by
  simp [skipWs, h]

theorem skipWs_replicate_space (n : Nat) (l : List Char) :
    skipWs (List.replicate n ' ' ++ l) = skipWs l := by
  induction n with
  | zero => rfl
  | succ m ih =>
    rw [List.replicate_succ, List.cons_append, skipWs_cons_ws (by decide), ih]

theorem skipWs_indent (lvl : Nat) (l : List Char) :
    skipWs (indentChars lvl ++ l) = skipWs l :=
  skipWs_replicate_space (2 * lvl) l

theorem skipWs_skipWs (l : List Char) : skipWs (skipWs l) = skipWs l := by
  induction l with
  | nil => rfl
  | cons c rest ih =>
    by_cases h : isJsonWs c = true
    · rw [skipWs_cons_ws h, ih]
    · rw [skipWs_cons_not_ws (by simpa using h), skipWs_cons_not_ws (by simpa using h)]

theorem jsonHead_skipWs (l : List Char) : jsonHead (skipWs l) = jsonHead l := by
  unfold jsonHead
  rw [skipWs_skipWs]

theorem jsonHead_cons_not_ws {c : Char} (h : isJsonWs c = false) (l : List Char) :
    jsonHead (c :: l) = some (c, l) := by
  unfold jsonHead
  rw [skipWs_cons_not_ws h]

theorem jsonHead_cons_ws {c : Char} (h : isJsonWs c = true) (l : List Char) :
    jsonHead (c :: l) = jsonHead l := by
  unfold jsonHead
  rw [skipWs_cons_ws h]

theorem jsonHead_indent (lvl : Nat) (l : List Char) :
    jsonHead (indentChars lvl ++ l) = jsonHead l := by
  unfold jsonHead
  rw [skipWs_indent]

theorem hexVal_hexDigitChar_fin : ∀ d : Fin 16, hexVal (hexDigitChar d.val) = some d.val := by
  decide

theorem hexVal_hexDigitChar {d : Nat} (h : d < 16) : hexVal (hexDigitChar d) = some d :=
  hexVal_hexDigitChar_fin ⟨d, h⟩

theorem jsonReadHex4_hex4 {n : Nat} (h : n < 0x10000) (l : List Char) :
    jsonReadHex4 (hex4 n ++ l) = some (n, l) := by
  have h1 : n / 4096 % 16 < 16 := Nat.mod_lt _ (by omega)
  have h2 : n / 256 % 16 < 16 := Nat.mod_lt _ (by omega)
  have h3 : n / 16 % 16 < 16 := Nat.mod_lt _ (by omega)
  have h4 : n % 16 < 16 := Nat.mod_lt _ (by omega)
  simp only [hex4, List.cons_append, List.nil_append, jsonReadHex4,
    hexVal_hexDigitChar h1, hexVal_hexDigitChar h2, hexVal_hexDigitChar h3,
    hexVal_hexDigitChar h4, Option.bind_some]
  have e1 : n / 4096 % 16 = n / 4096 := Nat.mod_eq_of_lt (by omega)
  have e2 : n / 256 % 16 = n % 4096 / 256 := by
    have := Nat.mod_mul_right_div_self n 256 16
    omega
  have e3 : n / 16 % 16 = n % 256 / 16 := by
    have := Nat.mod_mul_right_div_self n 16 16
    omega
  rw [e1, e2, e3]
  simp only [Option.some_bind, Option.some.injEq, Prod.mk.injEq, and_true]
  have d0 := Nat.div_add_mod n 4096
  have d1 := Nat.div_add_mod (n % 4096) 256
  have m1 : n % 4096 % 256 = n % 256 := Nat.mod_mod_of_dvd n (by norm_num)
  have d2 := Nat.div_add_mod (n % 256) 16
  have m2 : n % 256 % 16 = n % 16 := Nat.mod_mod_of_dvd n (by norm_num)
  omega

theorem jsonReadEscape_u (c : Char) (X : List Char) (h9 : c.toNat < 0x10000) :
    jsonReadEscape ('u' :: (hex4 c.toNat ++ X)) = some (c, X) := by
  have hv := char_toNat_valid c
  rw [jsonReadEscape, if_pos rfl, jsonReadHex4_hex4 h9, Option.some_bind]
  rw [if_neg (show ¬(55296 ≤ c.toNat ∧ c.toNat ≤ 56319) by omega)]
  rw [if_neg (show ¬(56320 ≤ c.toNat ∧ c.toNat ≤ 57343) by omega)]
  rw [Char.ofNat_toNat]

theorem jsonReadEscape_surrogate (c : Char) (X : List Char) (h9 : ¬c.toNat < 0x10000) :
    jsonReadEscape ('u' :: (hex4 (0xD800 + (c.toNat - 0x10000) / 1024) ++
      ('\\' :: 'u' :: (hex4 (0xDC00 + (c.toNat - 0x10000) % 1024) ++ X)))) = some (c, X) := by
  have hv := char_toNat_valid c
  have hhi : 0xD800 + (c.toNat - 0x10000) / 1024 < 0x10000 := by omega
  have hmod := Nat.mod_lt (c.toNat - 0x10000) (show 0 < 1024 by omega)
  have hlo : 0xDC00 + (c.toNat - 0x10000) % 1024 < 0x10000 := by omega
  rw [jsonReadEscape, if_pos rfl, jsonReadHex4_hex4 hhi, Option.some_bind]
  rw [if_pos (show 55296 ≤ 0xD800 + (c.toNat - 0x10000) / 1024 ∧
    0xD800 + (c.toNat - 0x10000) / 1024 ≤ 56319 by constructor <;> omega)]
  rw [show ∀ (r : List Char), jsonReadLowSurrogate ('\\' :: 'u' :: r) =
    (jsonReadHex4 r).bind fun mr =>
      if 0xDC00 ≤ mr.1 ∧ mr.1 ≤ 0xDFFF then some (mr.1, mr.2) else none
    from fun r => rfl]
  rw [jsonReadHex4_hex4 hlo, Option.some_bind]
  rw [if_pos (show 56320 ≤ 0xDC00 + (c.toNat - 0x10000) % 1024 ∧
    0xDC00 + (c.toNat - 0x10000) % 1024 ≤ 57343 by constructor <;> omega)]
  rw [Option.map_some']
  have harg : 0x10000 + (0xD800 + (c.toNat - 0x10000) / 1024 - 0xD800) * 1024 +
      (0xDC00 + (c.toNat - 0x10000) % 1024 - 0xDC00) = c.toNat := by
    have := Nat.div_add_mod (c.toNat - 0x10000) 1024
    omega
  rw [harg, Char.ofNat_toNat]

theorem parseStrFuel_escapeChar (c : Char) (f : Nat) (acc X : List Char) :
    parseStrFuel (f + 1) acc (escapeChar c ++ X) = parseStrFuel f (acc ++ [c]) X := by
  unfold escapeChar
  split_ifs with h1 h2 h3 h4 h5 h6 h7 h8 h9
  · rw [h1]
    simp only [List.cons_append, List.nil_append]
    rw [parseStrFuel, if_neg (by decide), if_pos rfl,
      show jsonReadEscape ('"' :: X) = some ('"', X) from rfl]
  · rw [h2]
    simp only [List.cons_append, List.nil_append]
    rw [parseStrFuel, if_neg (by decide), if_pos rfl,
      show jsonReadEscape ('\\' :: X) = some ('\\', X) from rfl]
  · have hc : c = Char.ofNat 8 := by rw [← h3, Char.ofNat_toNat]
    rw [hc]
    simp only [List.cons_append, List.nil_append]
    rw [parseStrFuel, if_neg (by decide), if_pos rfl,
      show jsonReadEscape ('b' :: X) = some (Char.ofNat 8, X) from rfl]
  · have hc : c = Char.ofNat 9 := by rw [← h4, Char.ofNat_toNat]
    rw [hc]
    simp only [List.cons_append, List.nil_append]
    rw [parseStrFuel, if_neg (by decide), if_pos rfl,
      show jsonReadEscape ('t' :: X) = some (Char.ofNat 9, X) from rfl]
  · have hc : c = Char.ofNat 10 := by rw [← h5, Char.ofNat_toNat]
    rw [hc]
    simp only [List.cons_append, List.nil_append]
    rw [parseStrFuel, if_neg (by decide), if_pos rfl,
      show jsonReadEscape ('n' :: X) = some (Char.ofNat 10, X) from rfl]
  · have hc : c = Char.ofNat 12 := by rw [← h6, Char.ofNat_toNat]
    rw [hc]
    simp only [List.cons_append, List.nil_append]
    rw [parseStrFuel, if_neg (by decide), if_pos rfl,
      show jsonReadEscape ('f' :: X) = some (Char.ofNat 12, X) from rfl]
  · have hc : c = Char.ofNat 13 := by rw [← h7, Char.ofNat_toNat]
    rw [hc]
    simp only [List.cons_append, List.nil_append]
    rw [parseStrFuel, if_neg (by decide), if_pos rfl,
      show jsonReadEscape ('r' :: X) = some (Char.ofNat 13, X) from rfl]
  · simp only [List.cons_append, List.nil_append]
    rw [parseStrFuel, if_neg h1, if_neg h2, if_neg (by omega)]
  · simp only [List.cons_append, List.nil_append]
    rw [parseStrFuel, if_neg (by decide), if_pos rfl, jsonReadEscape_u c X h9]
  · simp only [List.cons_append, List.append_assoc]
    rw [parseStrFuel, if_neg (by decide), if_pos rfl, jsonReadEscape_surrogate c X h9]

theorem parseStrFuel_escaped (cs : List Char) :
    ∀ (f : Nat) (acc l : List Char), cs.length + 1 ≤ f →
      parseStrFuel f acc (cs.flatMap escapeChar ++ '"' :: l) = some (acc ++ cs, l) := by
  induction cs with
  | nil =>
    intro f acc l hf
    obtain ⟨g, rfl⟩ : ∃ g, f = g + 1 := ⟨f - 1, by omega⟩
    simp only [List.flatMap_nil, List.nil_append]
    rw [parseStrFuel, if_pos rfl, List.append_nil]
  | cons c rest ih =>
    intro f acc l hf
    obtain ⟨g, rfl⟩ : ∃ g, f = g + 1 := ⟨f - 1, by omega⟩
    rw [List.flatMap_cons, List.append_assoc, parseStrFuel_escapeChar,
      ih g (acc ++ [c]) l (by simp at hf; omega), List.append_assoc, List.singleton_append]

theorem length_le_flatMap_escape (cs : List Char) :
    cs.length ≤ (cs.flatMap escapeChar).length := by
  induction cs with
  | nil => simp
  | cons c rest ih =>
    rw [List.flatMap_cons, List.length_append, List.length_cons]
    have h1 : 1 ≤ (escapeChar c).length := by
      unfold escapeChar
      split_ifs <;> simp
    omega

theorem parseStrFuel_renderStringTail (s : String) (l : List Char) :
    parseStrFuel (s.data.flatMap escapeChar ++ '"' :: l).length []
        (s.data.flatMap escapeChar ++ '"' :: l) = some (s.data, l) := by
  have hlen : s.data.length + 1 ≤ (s.data.flatMap escapeChar ++ '"' :: l).length := by
    rw [List.length_append, List.length_cons]
    have := length_le_flatMap_escape s.data
    omega
  rw [parseStrFuel_escaped s.data _ [] l hlen, List.nil_append]

theorem stringMk_data (s : String) : String.mk s.data = s := by cases s; rfl

theorem jsonHead_some_skipWs {l : List Char} {c : Char} {r : List Char}
    (h : jsonHead l = some (c, r)) : skipWs l = c :: r := by
  unfold jsonHead at h
  cases hs : skipWs l with
  | nil => rw [hs] at h; cases h
  | cons d t => rw [hs] at h; cases h; rfl

theorem parseVal_skipWs (f : Nat) (l : List Char) : parseVal f (skipWs l) = parseVal f l := by
  cases f with
  | zero => rfl
  | succ g => rw [parseVal, parseVal, jsonHead_skipWs]

theorem parseItemsAux_skipWs (f : Nat) (l : List Char) :
    parseItemsAux f (skipWs l) = parseItemsAux f l := by
  cases f with
  | zero => rfl
  | succ g => rw [parseItemsAux, parseItemsAux, parseVal_skipWs]

theorem parseFieldsAux_skipWs (f : Nat) (l : List Char) :
    parseFieldsAux f (skipWs l) = parseFieldsAux f l := by
  cases f with
  | zero => rfl
  | succ g => rw [parseFieldsAux, parseFieldsAux, jsonHead_skipWs]

theorem renderJson_head (lvl : Nat) (v : Json) :
    ∃ c cs, renderJson lvl v = c :: cs ∧ (c = 'n' ∨ c = '"' ∨ c = '[' ∨ c = '\x7b') := by
  cases v with
  | null => exact ⟨'n', "ull".data, by rw [renderJson], Or.inl rfl⟩
  | str s =>
    exact ⟨'"', s.data.flatMap escapeChar ++ ['"'], by rw [renderJson]; rfl,
      Or.inr (Or.inl rfl)⟩
  | arr xs =>
    cases xs with
    | nil => exact ⟨'[', [']'], by rw [renderJson], Or.inr (Or.inr (Or.inl rfl))⟩
    | cons x rest =>
      exact ⟨'[', '\n' :: (renderItems lvl (x :: rest) ++ '\n' :: (indentChars lvl ++ "]".data)),
        by rw [renderJson]; rfl, Or.inr (Or.inr (Or.inl rfl))⟩
  | obj kvs =>
    cases kvs with
    | nil => exact ⟨'\x7b', ['\x7d'], by rw [renderJson], Or.inr (Or.inr (Or.inr rfl))⟩
    | cons kv rest =>
      exact ⟨'\x7b',
        '\n' :: (renderFields lvl (kv :: rest) ++ '\n' :: (indentChars lvl ++ "\x7d".data)),
        by rw [renderJson]; rfl, Or.inr (Or.inr (Or.inr rfl))⟩

theorem renderItems_cons (lvl : Nat) (x : Json) (xs : List Json) :
    ∃ S, renderItems lvl (x :: xs) = indentChars (lvl + 1) ++ (renderJson (lvl + 1) x ++ S) := by
  cases xs with
  | nil => exact ⟨[], by rw [renderItems, List.append_nil]⟩
  | cons y ys =>
    exact ⟨",\n".data ++ renderItems lvl (y :: ys), by rw [renderItems] <;> simp⟩

theorem renderFields_cons (lvl : Nat) (kv : String × Json) (kvs : List (String × Json)) :
    ∃ S, renderFields lvl (kv :: kvs) =
      indentChars (lvl + 1) ++ (renderString kv.1 ++ S) := by
  cases kvs with
  | nil => exact ⟨": ".data ++ renderJson (lvl + 1) kv.2, by rw [renderFields]; simp⟩
  | cons kv2 kvs2 =>
    exact ⟨": ".data ++ renderJson (lvl + 1) kv.2 ++ (",\n".data ++ renderFields lvl (kv2 :: kvs2)),
      by rw [renderFields] <;> simp⟩

theorem jsonFuel_pos (v : Json) : 1 ≤ jsonFuel v := by
  cases v <;> rw [jsonFuel] <;> omega

theorem jsonListFuel_pos (xs : List Json) : 1 ≤ jsonListFuel xs := by
  cases xs <;> rw [jsonListFuel] <;> omega

theorem jsonFieldsFuel_pos (kvs : List (String × Json)) : 1 ≤ jsonFieldsFuel kvs := by
  cases kvs <;> rw [jsonFieldsFuel] <;> omega

theorem parseVal_cons_ws {c : Char} (h : isJsonWs c = true) (f : Nat) (l : List Char) :
    parseVal f (c :: l) = parseVal f l := by
  rw [← parseVal_skipWs f (c :: l), skipWs_cons_ws h, parseVal_skipWs]

theorem parseVal_indent (f n : Nat) (l : List Char) :
    parseVal f (indentChars n ++ l) = parseVal f l := by
  rw [← parseVal_skipWs f (indentChars n ++ l), skipWs_indent, parseVal_skipWs]

theorem parseItemsAux_cons_ws {c : Char} (h : isJsonWs c = true) (f : Nat) (l : List Char) :
    parseItemsAux f (c :: l) = parseItemsAux f l := by
  rw [← parseItemsAux_skipWs f (c :: l), skipWs_cons_ws h, parseItemsAux_skipWs]

theorem parseFieldsAux_cons_ws {c : Char} (h : isJsonWs c = true) (f : Nat) (l : List Char) :
    parseFieldsAux f (c :: l) = parseFieldsAux f l := by
  rw [← parseFieldsAux_skipWs f (c :: l), skipWs_cons_ws h, parseFieldsAux_skipWs]

theorem renderItems_single (lvl : Nat) (x : Json) :
    renderItems lvl [x] = indentChars (lvl + 1) ++ renderJson (lvl + 1) x := by
  rw [renderItems]

theorem renderItems_pair (lvl : Nat) (x y : Json) (ys : List Json) :
    renderItems lvl (x :: y :: ys) = indentChars (lvl + 1) ++ renderJson (lvl + 1) x ++
      ",\n".data ++ renderItems lvl (y :: ys) := by
  rw [renderItems] <;> simp

theorem renderFields_single (lvl : Nat) (kv : String × Json) :
    renderFields lvl [kv] = indentChars (lvl + 1) ++ renderString kv.1 ++ ": ".data ++
      renderJson (lvl + 1) kv.2 := by
  rw [renderFields]

theorem renderFields_pair (lvl : Nat) (kv kv2 : String × Json) (kvs2 : List (String × Json)) :
    renderFields lvl (kv :: kv2 :: kvs2) = indentChars (lvl + 1) ++ renderString kv.1 ++
      ": ".data ++ renderJson (lvl + 1) kv.2 ++ ",\n".data ++ renderFields lvl (kv2 :: kvs2) := by
  rw [renderFields] <;> simp

theorem jsonHead_of_skipWs {l m : List Char} {c : Char} (h : skipWs l = c :: m) :
    jsonHead l = some (c, m) := by
  unfold jsonHead
  rw [h]

theorem parseRenderAll : ∀ fuel : Nat,
    (∀ (v : Json) (lvl : Nat) (tail : List Char), jsonFuel v ≤ fuel →
      parseVal fuel (renderJson lvl v ++ tail) = some (v, tail)) ∧
    (∀ (lvl : Nat) (x : Json) (xs : List Json) (tail : List Char),
      jsonListFuel (x :: xs) ≤ fuel →
      parseItemsAux fuel
          (renderItems lvl (x :: xs) ++ '\n' :: (indentChars lvl ++ ']' :: tail)) =
        some (x :: xs, tail)) ∧
    (∀ (lvl : Nat) (kv : String × Json) (kvs : List (String × Json)) (tail : List Char),
      jsonFieldsFuel (kv :: kvs) ≤ fuel →
      parseFieldsAux fuel
          (renderFields lvl (kv :: kvs) ++ '\n' :: (indentChars lvl ++ '\x7d' :: tail)) =
        some (kv :: kvs, tail)) := by
  intro fuel
  induction fuel with
  | zero =>
    refine ⟨fun v lvl tail h => absurd h (by have := jsonFuel_pos v; omega),
      fun lvl x xs tail h => absurd h (by have := jsonListFuel_pos (x :: xs); omega),
      fun lvl kv kvs tail h => absurd h (by have := jsonFieldsFuel_pos (kv :: kvs); omega)⟩
  | succ f ih =>
    obtain ⟨iha, ihb, ihc⟩ := ih
    refine ⟨?_, ?_, ?_⟩
    · intro v lvl tail hfuel
      cases v with
      | null =>
        rw [renderJson]
        have hsh : "null".data ++ tail = 'n' :: 'u' :: 'l' :: 'l' :: tail := rfl
        rw [hsh, parseVal, jsonHead_cons_not_ws (by decide)]
        simp only [Option.some_bind, if_true]
        rw [show jsonReadNullTail ('u' :: 'l' :: 'l' :: tail) = some (Json.null, tail) from rfl]
      | str s =>
        rw [renderJson]
        have hsh : renderString s ++ tail =
            '"' :: (s.data.flatMap escapeChar ++ '"' :: tail) := by
          unfold renderString
          simp
        rw [hsh, parseVal, jsonHead_cons_not_ws (by decide)]
        simp only [Option.some_bind, if_true]
        rw [if_neg (by decide), parseStrFuel_renderStringTail s tail,
          Option.map_some', stringMk_data]
      | arr xs =>
        cases xs with
        | nil =>
          rw [renderJson]
          have hsh : "[]".data ++ tail = '[' :: ']' :: tail := rfl
          rw [hsh, parseVal, jsonHead_cons_not_ws (by decide)]
          simp only [Option.some_bind, if_true]
          rw [if_neg (by decide), if_neg (by decide), jsonHead_cons_not_ws (by decide)]
          simp only [Option.some_bind, if_true]
        | cons x xs =>
          rw [renderJson]
          have hsh : ("[\n".data ++ renderItems lvl (x :: xs) ++
              '\n' :: (indentChars lvl ++ "]".data)) ++ tail =
              '[' :: '\n' :: (renderItems lvl (x :: xs) ++
                '\n' :: (indentChars lvl ++ ']' :: tail)) := by
            simp
          rw [hsh, parseVal, jsonHead_cons_not_ws (by decide)]
          simp only [Option.some_bind, if_true]
          rw [if_neg (by decide), if_neg (by decide), jsonHead_cons_ws (by decide)]
          obtain ⟨S, hS⟩ := renderItems_cons lvl x xs
          obtain ⟨hc, hcs, hrend, hdisj⟩ := renderJson_head (lvl + 1) x
          have hcw : isJsonWs hc = false := by
            rcases hdisj with h | h | h | h <;> rw [h] <;> decide
          have hskip : skipWs (renderItems lvl (x :: xs) ++
              '\n' :: (indentChars lvl ++ ']' :: tail)) =
              hc :: (hcs ++ (S ++ '\n' :: (indentChars lvl ++ ']' :: tail))) := by
            rw [hS, List.append_assoc, skipWs_indent, List.append_assoc, hrend,
              List.cons_append, skipWs_cons_not_ws hcw]
          rw [jsonHead_of_skipWs hskip]
          simp only [Option.some_bind, if_true]
          have hne : ¬hc = ']' := by
            rcases hdisj with h | h | h | h <;> rw [h] <;> decide
          rw [if_neg hne, ← hskip, parseItemsAux_skipWs,
            ihb lvl x xs tail (by rw [jsonFuel] at hfuel; omega), Option.map_some']
      | obj kvs =>
        cases kvs with
        | nil =>
          rw [renderJson]
          have hsh : "\x7b\x7d".data ++ tail = '\x7b' :: '\x7d' :: tail := rfl
          rw [hsh, parseVal, jsonHead_cons_not_ws (by decide)]
          simp only [Option.some_bind, if_true]
          rw [if_neg (by decide), if_neg (by decide), if_neg (by decide),
            jsonHead_cons_not_ws (by decide)]
          simp only [Option.some_bind, if_true]
        | cons kv kvs =>
          rw [renderJson]
          have hsh : ("\x7b\n".data ++ renderFields lvl (kv :: kvs) ++
              '\n' :: (indentChars lvl ++ "\x7d".data)) ++ tail =
              '\x7b' :: '\n' :: (renderFields lvl (kv :: kvs) ++
                '\n' :: (indentChars lvl ++ '\x7d' :: tail)) := by
            simp
          rw [hsh, parseVal, jsonHead_cons_not_ws (by decide)]
          simp only [Option.some_bind, if_true]
          rw [if_neg (by decide), if_neg (by decide), if_neg (by decide),
            jsonHead_cons_ws (by decide)]
          obtain ⟨S, hS⟩ := renderFields_cons lvl kv kvs
          have hskip : skipWs (renderFields lvl (kv :: kvs) ++
              '\n' :: (indentChars lvl ++ '\x7d' :: tail)) =
              '"' :: ((kv.1.data.flatMap escapeChar ++ ['"']) ++
                (S ++ '\n' :: (indentChars lvl ++ '\x7d' :: tail))) := by
            rw [hS, List.append_assoc, skipWs_indent, List.append_assoc,
              show renderString kv.1 = '"' :: (kv.1.data.flatMap escapeChar ++ ['"']) from rfl,
              List.cons_append, skipWs_cons_not_ws (by decide)]
          rw [jsonHead_of_skipWs hskip]
          simp only [Option.some_bind, if_true]
          rw [if_neg (by decide), ← hskip, parseFieldsAux_skipWs,
            ihc lvl kv kvs tail (by rw [jsonFuel] at hfuel; omega), Option.map_some']
    · intro lvl x xs tail hfuel
      cases xs with
      | nil =>
        rw [parseItemsAux, renderItems_single]
        have hb1 : parseVal f ((indentChars (lvl + 1) ++ renderJson (lvl + 1) x) ++
            '\n' :: (indentChars lvl ++ ']' :: tail)) =
            some (x, '\n' :: (indentChars lvl ++ ']' :: tail)) := by
          rw [List.append_assoc, parseVal_indent, iha x (lvl + 1) _
            (by rw [jsonListFuel, jsonListFuel] at hfuel; omega)]
        rw [hb1]
        simp only [Option.some_bind]
        rw [jsonHead_cons_ws (by decide), jsonHead_indent, jsonHead_cons_not_ws (by decide)]
        simp only [Option.some_bind, if_true]
        rw [if_neg (by decide)]
      | cons y ys =>
        rw [parseItemsAux, renderItems_pair]
        have hb0 : jsonFuel x ≤ f := by
          rw [jsonListFuel] at hfuel
          have := jsonListFuel_pos (y :: ys)
          omega
        have hb1 : parseVal f ((indentChars (lvl + 1) ++ renderJson (lvl + 1) x ++
            ",\n".data ++ renderItems lvl (y :: ys)) ++
            '\n' :: (indentChars lvl ++ ']' :: tail)) =
            some (x, ",\n".data ++ (renderItems lvl (y :: ys) ++
              '\n' :: (indentChars lvl ++ ']' :: tail))) := by
          have e : (indentChars (lvl + 1) ++ renderJson (lvl + 1) x ++
              ",\n".data ++ renderItems lvl (y :: ys)) ++
              '\n' :: (indentChars lvl ++ ']' :: tail) =
              indentChars (lvl + 1) ++ (renderJson (lvl + 1) x ++
                (",\n".data ++ (renderItems lvl (y :: ys) ++
                  '\n' :: (indentChars lvl ++ ']' :: tail)))) := by
            simp
          rw [e, parseVal_indent, iha x (lvl + 1) _ hb0]
        rw [hb1]
        simp only [Option.some_bind]
        rw [show ",\n".data ++ (renderItems lvl (y :: ys) ++
            '\n' :: (indentChars lvl ++ ']' :: tail)) =
            ',' :: '\n' :: (renderItems lvl (y :: ys) ++
              '\n' :: (indentChars lvl ++ ']' :: tail)) from rfl,
          jsonHead_cons_not_ws (by decide)]
        simp only [Option.some_bind, if_true]
        rw [parseItemsAux_cons_ws (by decide),
          ihb lvl y ys tail (by rw [jsonListFuel] at hfuel; have := jsonFuel_pos x; omega),
          Option.map_some']
    · intro lvl kv kvs tail hfuel
      cases kvs with
      | nil =>
        rw [parseFieldsAux, renderFields_single]
        have e : (indentChars (lvl + 1) ++ renderString kv.1 ++ ": ".data ++
            renderJson (lvl + 1) kv.2) ++ '\n' :: (indentChars lvl ++ '\x7d' :: tail) =
            indentChars (lvl + 1) ++ ('"' :: (kv.1.data.flatMap escapeChar ++
              '"' :: (':' :: ' ' :: (renderJson (lvl + 1) kv.2 ++
                '\n' :: (indentChars lvl ++ '\x7d' :: tail))))) := by
          rw [show renderString kv.1 = '"' :: (kv.1.data.flatMap escapeChar ++ ['"']) from rfl]
          simp
        rw [e, jsonHead_indent, jsonHead_cons_not_ws (by decide)]
        simp only [Option.some_bind, if_true]
        rw [parseStrFuel_renderStringTail kv.1
          (':' :: ' ' :: (renderJson (lvl + 1) kv.2 ++
            '\n' :: (indentChars lvl ++ '\x7d' :: tail)))]
        simp only [Option.some_bind]
        rw [jsonHead_cons_not_ws (by decide)]
        simp only [Option.some_bind, if_true]
        rw [parseVal_cons_ws (by decide), iha kv.2 (lvl + 1) _
          (by rw [jsonFieldsFuel, jsonFieldsFuel] at hfuel; omega)]
        simp only [Option.some_bind]
        rw [jsonHead_cons_ws (by decide), jsonHead_indent, jsonHead_cons_not_ws (by decide)]
        simp only [Option.some_bind, if_true]
        rw [if_neg (by decide), stringMk_data]
      | cons kv2 kvs2 =>
        rw [parseFieldsAux, renderFields_pair]
        have hc0 : jsonFuel kv.2 ≤ f := by
          rw [jsonFieldsFuel] at hfuel
          have := jsonFieldsFuel_pos (kv2 :: kvs2)
          omega
        have e : (indentChars (lvl + 1) ++ renderString kv.1 ++ ": ".data ++
            renderJson (lvl + 1) kv.2 ++ ",\n".data ++ renderFields lvl (kv2 :: kvs2)) ++
            '\n' :: (indentChars lvl ++ '\x7d' :: tail) =
            indentChars (lvl + 1) ++ ('"' :: (kv.1.data.flatMap escapeChar ++
              '"' :: (':' :: ' ' :: (renderJson (lvl + 1) kv.2 ++
                (",\n".data ++ (renderFields lvl (kv2 :: kvs2) ++
                  '\n' :: (indentChars lvl ++ '\x7d' :: tail))))))) := by
          rw [show renderString kv.1 = '"' :: (kv.1.data.flatMap escapeChar ++ ['"']) from rfl]
          simp
        rw [e, jsonHead_indent, jsonHead_cons_not_ws (by decide)]
        simp only [Option.some_bind, if_true]
        rw [parseStrFuel_renderStringTail kv.1
          (':' :: ' ' :: (renderJson (lvl + 1) kv.2 ++
            (",\n".data ++ (renderFields lvl (kv2 :: kvs2) ++
              '\n' :: (indentChars lvl ++ '\x7d' :: tail)))))]
        simp only [Option.some_bind]
        rw [jsonHead_cons_not_ws (by decide)]
        simp only [Option.some_bind, if_true]
        rw [parseVal_cons_ws (by decide), iha kv.2 (lvl + 1) _ hc0]
        simp only [Option.some_bind]
        rw [show ",\n".data ++ (renderFields lvl (kv2 :: kvs2) ++
            '\n' :: (indentChars lvl ++ '\x7d' :: tail)) =
            ',' :: '\n' :: (renderFields lvl (kv2 :: kvs2) ++
              '\n' :: (indentChars lvl ++ '\x7d' :: tail)) from rfl,
          jsonHead_cons_not_ws (by decide)]
        simp only [Option.some_bind, if_true]
        rw [parseFieldsAux_cons_ws (by decide),
          ihc lvl kv2 kvs2 tail
            (by rw [jsonFieldsFuel] at hfuel; have := jsonFuel_pos kv.2; omega),
          Option.map_some', stringMk_data]

mutual

theorem jsonFuel_le_render (lvl : Nat) (v : Json) : jsonFuel v ≤ (renderJson lvl v).length := by
  cases v with
  | null => rw [jsonFuel, renderJson]; simp
  | str s =>
    rw [jsonFuel, renderJson]
    unfold renderString
    simp
  | arr xs =>
    cases xs with
    | nil => rw [jsonFuel, jsonListFuel, renderJson]; simp
    | cons x rest =>
      rw [jsonFuel, renderJson]
      have h := jsonListFuel_le_renderItems lvl x rest
      simp only [List.length_append, List.length_cons]
      omega
  | obj kvs =>
    cases kvs with
    | nil => rw [jsonFuel, jsonFieldsFuel, renderJson]; simp
    | cons kv rest =>
      obtain ⟨k, w⟩ := kv
      rw [jsonFuel, renderJson]
      have h := jsonFieldsFuel_le_renderFields lvl k w rest
      simp only [List.length_append, List.length_cons]
      omega
termination_by sizeOf v

theorem jsonListFuel_le_renderItems (lvl : Nat) (x : Json) (xs : List Json) :
    jsonListFuel (x :: xs) ≤ (renderItems lvl (x :: xs)).length := by
  cases xs with
  | nil =>
    rw [jsonListFuel, jsonListFuel, renderItems_single]
    have h := jsonFuel_le_render (lvl + 1) x
    simp only [List.length_append, indentChars, List.length_replicate]
    omega
  | cons y ys =>
    rw [jsonListFuel, renderItems_pair]
    have h1 := jsonFuel_le_render (lvl + 1) x
    have h2 := jsonListFuel_le_renderItems lvl y ys
    simp only [List.length_append, indentChars, List.length_replicate]
    omega
termination_by sizeOf (x :: xs)

theorem jsonFieldsFuel_le_renderFields (lvl : Nat) (k : String) (w : Json)
    (kvs : List (String × Json)) :
    jsonFieldsFuel ((k, w) :: kvs) ≤ (renderFields lvl ((k, w) :: kvs)).length := by
  cases kvs with
  | nil =>
    rw [jsonFieldsFuel, jsonFieldsFuel, renderFields_single]
    have h := jsonFuel_le_render (lvl + 1) w
    simp only [List.length_append, indentChars, List.length_replicate]
    omega
  | cons kv2 kvs2 =>
    obtain ⟨k2, w2⟩ := kv2
    rw [jsonFieldsFuel, renderFields_pair]
    have h1 := jsonFuel_le_render (lvl + 1) w
    have h2 := jsonFieldsFuel_le_renderFields lvl k2 w2 kvs2
    simp only [List.length_append, indentChars, List.length_replicate]
    omega
termination_by sizeOf ((k, w) :: kvs)

end

/-- C7: the serializer's output is valid, re-parseable structured text:
parsing the rendered document of any record list succeeds and returns
exactly the rendered JSON value, with column order per record and row
order across records preserved (the parsed value is the same `Json`
value, order included). -/
theorem to_json_reparses (data : List TabularRecord) :
    jsonParse (to_json data) = some (recordsJson data) := by
  unfold jsonParse to_json
  have hdata : (String.mk (renderJson 0 (recordsJson data))).data
      = renderJson 0 (recordsJson data) := rfl
  have hlen : (String.mk (renderJson 0 (recordsJson data))).length
      = (renderJson 0 (recordsJson data)).length := rfl
  rw [hdata, hlen]
  have hfuel : jsonFuel (recordsJson data) ≤ (renderJson 0 (recordsJson data)).length + 1 := by
    have := jsonFuel_le_render 0 (recordsJson data)
    omega
  have h := (parseRenderAll ((renderJson 0 (recordsJson data)).length + 1)).1
    (recordsJson data) 0 [] hfuel
  rw [List.append_nil] at h
  rw [h]
  simp only [Option.some_bind]
  rw [if_pos (show skipWs [] = [] from rfl)]
